import Mathlib

/-!
Verification of the gain-reconciliation and decision-gate core of the
AlertOrchestratorStablesCardano repository.

The Python sources `src/shared/correct_calculations.py`, `src/shared/models.py`
and `src/core/alert_logic.py` are shallowly embedded below.  Machine floats are
modelled as rationals, Python `datetime` objects as a wall-clock value together
with an optional UTC offset (mirroring naive versus timezone-aware datetimes),
and fallible code returns `Except String`.  External numeric library routines
that compute irrational values (numpy `std`, `polyfit`, `quantile`, scipy cubic
splines) are passed in as explicit function parameters, so every theorem below
quantifies over their behaviour; all branch and control logic of the repository
itself is embedded directly.
-/

namespace AlertOrch

/-- Model of a Python `datetime`: `wall` is the wall-clock reading encoded in
seconds, `tz` the UTC offset in seconds (`none` for a timezone-naive value).
The epoch instant of an aware value is `wall - offset`. -/
structure PyDateTime where
  wall : ℤ
  tz : Option ℤ
  deriving DecidableEq

/-- Epoch seconds of a datetime.  Aware values subtract their offset; for naive
values the pipeline only ever converts after normalising to UTC, so the wall
reading is the instant. -/
def PyDateTime.instant (t : PyDateTime) : ℤ :=
  t.wall - t.tz.getD 0

/-- Python `==` on datetimes: two naive values compare by wall reading, two
aware values compare by instant, and a naive value never equals an aware one. -/
def pyEq (a b : PyDateTime) : Bool :=
  match a.tz, b.tz with
  | none, none => a.wall == b.wall
  | some oa, some ob => (a.wall - oa) == (b.wall - ob)
  | _, _ => false

/-- `normalize_timestamp` from `correct_calculations.py`: a naive datetime gets
`tzinfo=timezone.utc` attached (wall reading kept), an aware one is converted to
UTC (instant kept). -/
def normalizeTimestamp (t : PyDateTime) : PyDateTime :=
  match t.tz with
  | none => ⟨t.wall, some 0⟩
  | some o => ⟨t.wall - o, some 0⟩

/-- `create_unified_timebase`: normalise position and transaction timestamps to
UTC, take the set union and sort.  After normalisation every element is aware
with offset 0, so Python set deduplication and sorting act on the instant. -/
def createUnifiedTimebase (positionTs transactionTs : List PyDateTime) :
    List PyDateTime :=
  let walls := ((positionTs.map normalizeTimestamp) ++
    (transactionTs.map normalizeTimestamp)).map PyDateTime.wall
  (walls.dedup.insertionSort (· ≤ ·)).map (fun w => ⟨w, some 0⟩)

/-- `np.where(unified_timebase == transaction.timestamp)[0][0]`: index of the
first element of the timebase that Python-equals the given timestamp. -/
def findMatchIdx : List PyDateTime → PyDateTime → Option ℕ
  | [], _ => none
  | x :: rest, t =>
    if pyEq x t then some 0 else (findMatchIdx rest t).map (· + 1)

/-- Python `str.lower()` (ASCII case folding, which covers every string the
configuration can supply here). -/
def pyLower (s : String) : String :=
  ⟨s.data.map Char.toLower⟩

/-- Python `str.strip()`: leading and trailing whitespace removed. -/
def pyStrip (s : String) : String :=
  ⟨((s.data.dropWhile Char.isWhitespace).reverse.dropWhile Char.isWhitespace).reverse⟩

/-- The `Transaction` dataclass of `src/shared/models.py`. -/
structure Transaction where
  timestamp : PyDateTime
  walletAddress : String
  marketId : String
  assetSymbol : String
  amount : ℚ
  transactionType : String
  createdAt : PyDateTime
  deriving DecidableEq

/-- The construction invariant enforced by `Transaction.__post_init__`:
non-blank identifiers, a known transaction type, positive deposit amounts and
negative withdrawal amounts. -/
def Transaction.valid (tx : Transaction) : Prop :=
  pyStrip tx.walletAddress ≠ "" ∧
  pyStrip tx.marketId ≠ "" ∧
  pyStrip tx.assetSymbol ≠ "" ∧
  (tx.transactionType = "deposit" ∨ tx.transactionType = "withdrawal") ∧
  (tx.transactionType = "deposit" → 0 < tx.amount) ∧
  (tx.transactionType = "withdrawal" → tx.amount < 0)

instance (tx : Transaction) : Decidable tx.valid := by
  unfold Transaction.valid; infer_instance

/-- `np.interp` on an increasing list of (sample point, sample value) pairs:
values left of the first sample hold the first value, values right of the last
sample hold the last value, and values in between are joined linearly. -/
def npInterpPairs (x : ℚ) : List (ℚ × ℚ) → ℚ
  | [] => 0
  | [(_, y0)] => y0
  | (x0, y0) :: (x1, y1) :: rest =>
    if x < x0 then y0
    else if x ≤ x1 then y0 + (y1 - y0) * (x - x0) / (x1 - x0)
    else npInterpPairs x ((x1, y1) :: rest)

/-- `interpolate_positions_on_timebase`: validate lengths, normalise the sample
timestamps to UTC, convert everything to epoch seconds and interpolate onto the
unified timebase.  `np.interp` (and scipy `interp1d`) reject an empty sample
set, which surfaces here as an error.  The scipy cubic interpolant is passed in
as `cubicFn` (`none` models the NaN it returns outside the sampled range, which
the code then fills by linear interpolation); with fewer than 4 samples the
cubic method silently falls back to linear. -/
def interpolatePositions (positionTs : List PyDateTime) (positionVals : List ℚ)
    (tb : List PyDateTime) (method : String) (cubicFn : ℚ → Option ℚ) :
    Except String (List ℚ) :=
  if positionTs.length ≠ positionVals.length then
    .error "Position timestamps and values must have same length"
  else
    let xp := positionTs.map (fun t => ((normalizeTimestamp t).instant : ℚ))
    let pairs := xp.zip positionVals
    let xs := tb.map (fun t => (t.instant : ℚ))
    if method == "linear" then
      if xp.isEmpty then .error "array of sample points is empty"
      else .ok (xs.map (fun x => npInterpPairs x pairs))
    else if method == "cubic" then
      if positionVals.length < 4 then
        if xp.isEmpty then .error "array of sample points is empty"
        else .ok (xs.map (fun x => npInterpPairs x pairs))
      else
        .ok (xs.map (fun x =>
          match cubicFn x with
          | some v => v
          | none => npInterpPairs x pairs))
    else .error "Unsupported interpolation method"

/-- Indices of the timebase that are original position samples:
`np.where(pos_mask)[0]` as a list. -/
def trueIndices (mask : List Bool) : List ℕ :=
  (List.range mask.length).filter (fun j => mask.getD j false)

/-- The `snap_to_next_pos` forward scan: first index `j ≥ i` with `mask[j]`. -/
def findNextTrue (mask : List Bool) (i : ℕ) : Option ℕ :=
  ((List.range mask.length).drop i).find? (fun j => mask.getD j false)

/-- The `snap_to_prev_pos` backward scan: last index `j ≤ i` with `mask[j]`. -/
def findPrevTrue (mask : List Bool) (i : ℕ) : Option ℕ :=
  ((List.range (i + 1)).filter (fun j => mask.getD j false)).getLast?

/-- `np.isclose` with its default tolerances `rtol=1e-5`, `atol=1e-8`. -/
def iscloseQ (a b : ℚ) : Bool :=
  |a - b| ≤ 1 / 100000000 + 1 / 100000 * |b|

/-- Minimum of a list of rationals (`np.min`; 0 for the empty list, which the
code never queries). -/
def minQ (l : List ℚ) : ℚ :=
  l.foldl min (l.headD 0)

/-- `np.argmin`-style first minimiser of `f` over `l`. -/
def argminFirst (l : List ℕ) (f : ℕ → ℕ) (dflt : ℕ) : ℕ :=
  match l with
  | [] => dflt
  | x :: rest => rest.foldl (fun best k => if f k < f best then k else best) x

/-- `np.median`: midpoint of the sorted list (mean of the two central elements
for even length). -/
def medianQ (l : List ℚ) : ℚ :=
  let s := l.insertionSort (· ≤ ·)
  let n := l.length
  if n == 0 then 0
  else if n % 2 == 1 then s.getD (n / 2) 0
  else (s.getD (n / 2 - 1) 0 + s.getD (n / 2) 0) / 2

/-- Population variance, used to decide the `np.std(local) > 0` guard (a
standard deviation is positive exactly when the variance is). -/
def varQ (l : List ℚ) : ℚ :=
  if l.length == 0 then 0
  else
    let m := l.sum / (l.length : ℚ)
    (l.map (fun x => (x - m) ^ 2)).sum / (l.length : ℚ)

/-- `np.diff`: successive differences. -/
def diffs : List ℚ → List ℚ
  | [] => []
  | [_] => []
  | a :: b :: rest => (b - a) :: diffs (b :: rest)

/-- Lexicographic comparison of the `(dist, -abs(z))` scores used by the
spike-detect scan. -/
def scoreLt (a b : ℕ × ℚ) : Prop :=
  a.1 < b.1 ∨ (a.1 = b.1 ∧ a.2 < b.2)

instance (a b : ℕ × ℚ) : Decidable (scoreLt a b) := by
  unfold scoreLt; infer_instance

/-- The `_scan` helper of `choose_index_for_tx`: among window offsets whose
step has the expected sign, a robust z-score at or above the threshold and
(unless `ignoreMag`) a magnitude within the configured band, pick the one with
the lexicographically smallest `(distance to idx, -abs(z))` score, earliest
offset winning ties. -/
def scanBest (localL z : List ℚ) (start idx : ℕ) (sign mag zThr alpha beta : ℚ)
    (ignoreMag : Bool) : Option ℕ :=
  ((List.range localL.length).foldl (fun best j =>
    let val := localL.getD j 0
    let zval := z.getD j 0
    if sign * val ≤ 0 ∨ |zval| < zThr then best
    else if ignoreMag = false ∧ 0 < mag ∧
        ¬(alpha ≤ |val| / mag ∧ |val| / mag ≤ beta) then best
    else
      let dist := ((start + j : ℤ) - idx).natAbs
      let score : ℕ × ℚ := (dist, -|zval|)
      match best with
      | none => some (start + j, score)
      | some (bi, bs) =>
        if scoreLt score bs then some (start + j, score) else some (bi, bs))
    none).map Prod.fst

/-- The final spike-detect fallback: hop forward to the first non-flat step of
the expected sign within an enlarged forward window (right edge of that step),
else keep the base index. -/
def forwardFallback (dP : List ℚ) (idx windowBins : ℕ) (sign : ℚ) (n : ℕ) : ℕ :=
  let maxForward := max 8 (windowBins * 3)
  let fEnd := min (n - 2) (idx + maxForward)
  if idx < fEnd then
    let forwardLocal := (dP.drop idx).take (fEnd + 1 - idx)
    match (List.range forwardLocal.length).find? (fun j =>
        decide ((1 : ℚ) / 1000000000 < |forwardLocal.getD j 0|) &&
        decide (0 < sign * forwardLocal.getD j 0)) with
    | some j => min (idx + j + 1) (n - 1)
    | none => idx
  else idx

/-- The `snap_to_next_pos` policy: keep the base index when it is already a
position sample, else advance to the next one; past the end, fall back to the
last position sample (or the base index when there is none). -/
def snapToNextIdx (mask : List Bool) (idx : ℕ) : ℕ :=
  match findNextTrue mask idx with
  | some j => j
  | none =>
    match (trueIndices mask).getLast? with
    | some k => k
    | none => idx

/-- The `snap_to_prev_pos` policy: walk back to the previous position sample;
past the start, fall back to the first position sample (or the base index). -/
def snapToPrevIdx (mask : List Bool) (idx : ℕ) : ℕ :=
  match findPrevTrue mask idx with
  | some j => j
  | none =>
    match (trueIndices mask).head? with
    | some k => k
    | none => idx

/-- The `snap_to_nearest_pos` policy: nearest position sample by time
distance, ties (under `np.isclose`) broken toward the later index.
Subtracting a naive timestamp from the aware timebase raises TypeError, which
the handler turns into an index-distance fallback (`np.argmin` keeps the
first minimiser).  With no position sample at all the code falls through to
the default base index. -/
def snapToNearestIdx (tb : List PyDateTime) (mask : List Bool) (idx : ℕ)
    (tx : Transaction) : ℕ :=
  let posIdx := trueIndices mask
  if posIdx.isEmpty then idx
  else
    match tx.timestamp.tz with
    | none => argminFirst posIdx (fun k => ((k : ℤ) - idx).natAbs) idx
    | some _ =>
      let delta := fun k =>
        (|(tb.getD k ⟨0, some 0⟩).instant - tx.timestamp.instant| : ℚ)
      let minD := minQ (posIdx.map delta)
      (posIdx.filter (fun k => iscloseQ (delta k) minD)).foldl max 0

/-- The `detect_spike` policy: scan a window of first differences of the
interpolated positions for a step of the expected sign and robust z-score
(optionally within the magnitude band), map it to its right edge; failing
that, hop forward to the first same-signed non-flat step; failing that, keep
the base index. -/
def detectSpikeIdx (tb : List PyDateTime) (P : List ℚ) (windowBins : ℕ)
    (zThreshold alpha beta : ℚ) (stdFn : List ℚ → ℚ) (idx : ℕ)
    (tx : Transaction) : ℕ :=
  let dP := diffs P
  let start := max 1 (idx - windowBins)
  let endi := min (tb.length - 1) (idx + windowBins)
  let localL := (dP.drop start).take (endi + 1 - start)
  if 0 < localL.length then
    let med := medianQ localL
    let mad := medianQ (localL.map (fun v => |v - med|))
    let scale := if 0 < mad then (14826 : ℚ) / 10000 * mad
      else if 0 < varQ localL then stdFn localL else 1
    let z := localL.map (fun v => (v - med) / scale)
    let sign : ℚ := if tx.transactionType == "withdrawal" then -1 else 1
    let mag := |tx.amount|
    match scanBest localL z start idx sign mag zThreshold alpha beta false with
    | some b => min (b + 1) (tb.length - 1)
    | none =>
      match scanBest localL z start idx sign mag zThreshold alpha beta true with
      | some b => min (b + 1) (tb.length - 1)
      | none => forwardFallback dP idx windowBins sign tb.length
  else idx

/-- `choose_index_for_tx` from `create_transaction_vectors_on_timebase`:
resolve the timebase index an event's effect is written to, under the
configured alignment policy.  `stdFn` stands for numpy's `std` (its exact
value is irrational in general; every theorem quantifies over it). -/
def chooseIndexForTx (method : String) (tb : List PyDateTime)
    (posMask : Option (List Bool)) (interpPos : Option (List ℚ))
    (windowBins : ℕ) (zThreshold alpha beta : ℚ) (stdFn : List ℚ → ℚ)
    (idx : ℕ) (tx : Transaction) : ℕ :=
  if method == "right_open" then min (idx + 1) (tb.length - 1)
  else if method == "snap_to_next_pos" ∧ posMask.isSome then
    snapToNextIdx (posMask.getD []) idx
  else if method == "snap_to_prev_pos" ∧ posMask.isSome then
    snapToPrevIdx (posMask.getD []) idx
  else if method == "snap_to_nearest_pos" ∧ posMask.isSome then
    snapToNearestIdx tb (posMask.getD []) idx tx
  else if method == "detect_spike" ∧ interpPos.isSome ∧ 0 < idx ∧
      idx < tb.length then
    detectSpikeIdx tb (interpPos.getD []) windowBins zThreshold alpha beta
      stdFn idx tx
  else idx

/-- One iteration of the transaction-mapping loop: look the event's timestamp
up in the unified timebase; on a match, write the amount (deposits) or its
magnitude (withdrawals) at the policy-chosen index — an assignment, not an
accumulation; on a miss the event is logged and dropped. -/
def applyOneTx (method : String) (tb : List PyDateTime)
    (posMask : Option (List Bool)) (interpPos : Option (List ℚ))
    (windowBins : ℕ) (zThreshold alpha beta : ℚ) (stdFn : List ℚ → ℚ)
    (vecs : List ℚ × List ℚ) (tx : Transaction) : List ℚ × List ℚ :=
  match findMatchIdx tb tx.timestamp with
  | none => vecs
  | some baseIdx =>
    let idx := chooseIndexForTx method tb posMask interpPos windowBins
      zThreshold alpha beta stdFn baseIdx tx
    if tx.transactionType == "deposit" then (vecs.1.set idx tx.amount, vecs.2)
    else if tx.transactionType == "withdrawal" then
      (vecs.1, vecs.2.set idx |tx.amount|)
    else vecs

/-- Normalisation of the alignment-method string performed by
`create_transaction_vectors_on_timebase` (empty strings mean "none", then
strip and lower-case). -/
def normalizeMethod (alignmentMethod : String) : String :=
  pyLower (pyStrip (if alignmentMethod == "" then "none" else alignmentMethod))

/-- The position-sample mask built by `create_transaction_vectors_on_timebase`
(`None` when no position-timestamp set is supplied, since an empty Python set
is falsy). -/
def buildPosMask (posTsSet tb : List PyDateTime) : Option (List Bool) :=
  if posTsSet.isEmpty then none
  else some (tb.map (fun t => posTsSet.any (fun p => pyEq t p)))

/-- `create_transaction_vectors_on_timebase`: zero-initialised deposit and
withdrawal vectors on the unified timebase, filled by iterating the events. -/
def createTransactionVectors (txs : List Transaction) (tb : List PyDateTime)
    (interpPos : Option (List ℚ)) (posTsSet : List PyDateTime)
    (alignmentMethod : String) (windowBins : ℕ) (zThreshold alpha beta : ℚ)
    (stdFn : List ℚ → ℚ) : List ℚ × List ℚ :=
  txs.foldl
    (applyOneTx (normalizeMethod alignmentMethod) tb (buildPosMask posTsSet tb)
      interpPos windowBins zThreshold alpha beta stdFn)
    (List.replicate tb.length 0, List.replicate tb.length 0)

/-- `np.cumsum` with a running accumulator. -/
def cumsumFrom (acc : ℚ) : List ℚ → List ℚ
  | [] => []
  | x :: rest => (acc + x) :: cumsumFrom (acc + x) rest

/-- `np.cumsum`: running sums of a vector. -/
def cumsum (l : List ℚ) : List ℚ :=
  cumsumFrom 0 l

/-- Whether `calculate_correct_gains` aligns on `created_at` instead of the
transaction timestamp (`tx_timestamp_source` defaulted, stripped and
lower-cased). -/
def ccgUseCreated (txTimestampSource : String) : Bool :=
  pyLower (pyStrip (if txTimestampSource == "" then "timestamp" else txTimestampSource))
    == "created_at"

/-- The transaction timestamps projected to the configured alignment field. -/
def ccgTransactionTs (txs : List Transaction) (txTimestampSource : String) :
    List PyDateTime :=
  txs.map (fun tx =>
    if ccgUseCreated txTimestampSource then tx.createdAt else tx.timestamp)

/-- The unified timebase built by `calculate_correct_gains` (step 1). -/
def ccgTimebase (positionTs : List PyDateTime) (txs : List Transaction)
    (txTimestampSource : String) : List PyDateTime :=
  createUnifiedTimebase positionTs (ccgTransactionTs txs txTimestampSource)

/-- The transactions handed to the mapper: shallow copies with the timestamp
swapped to `created_at` when that alignment field is configured (step 3). -/
def ccgTxsForMap (txs : List Transaction) (txTimestampSource : String) :
    List Transaction :=
  if ccgUseCreated txTimestampSource then
    txs.map (fun tx => { tx with timestamp := tx.createdAt })
  else txs

/-- The deposit and withdrawal CDFs of `calculate_correct_gains`
(steps 3 and 4). -/
def ccgCdfs (positionTs : List PyDateTime) (txs : List Transaction)
    (interpPos : List ℚ) (alignmentMethod txTimestampSource : String)
    (stdFn : List ℚ → ℚ) : List ℚ × List ℚ :=
  let vecs := createTransactionVectors (ccgTxsForMap txs txTimestampSource)
    (ccgTimebase positionTs txs txTimestampSource) (some interpPos)
    ((positionTs.map normalizeTimestamp).dedup) alignmentMethod 8 3 (3 / 10)
    (3 / 2) stdFn
  (cumsum vecs.1, cumsum vecs.2)

/-- Step 5 of `calculate_correct_gains`: the reference-relative gain series
`G(t) = P(t) - P(t0) - (D(t)-D(t0)) + (W(t)-W(t0))` over the timebase. -/
def gainsFromComponents (interpPos depositCdf withdrawalCdf : List ℚ)
    (n refIdx : ℕ) : List ℚ :=
  (List.range n).map (fun i =>
    interpPos.getD i 0 - interpPos.getD refIdx 0 -
      (depositCdf.getD i 0 - depositCdf.getD refIdx 0) +
      (withdrawalCdf.getD i 0 - withdrawalCdf.getD refIdx 0))

/-- `calculate_correct_gains`: unified timebase, interpolated positions,
deposit/withdrawal CDFs and the reference-relative corrected gain series.
The reference index is bounds-checked and rejected with a `ValueError` when
out of range. -/
def calculateCorrectGains (positionTs : List PyDateTime) (positionVals : List ℚ)
    (txs : List Transaction) (refIdx : ℕ)
    (interpolationMethod alignmentMethod txTimestampSource : String)
    (cubicFn : ℚ → Option ℚ) (stdFn : List ℚ → ℚ) :
    Except String (List PyDateTime × List ℚ × List ℚ × List ℚ × List ℚ) :=
  match interpolatePositions positionTs positionVals
      (ccgTimebase positionTs txs txTimestampSource) interpolationMethod cubicFn with
  | .error e => .error e
  | .ok interpPos =>
    let cdfs := ccgCdfs positionTs txs interpPos alignmentMethod
      txTimestampSource stdFn
    if (ccgTimebase positionTs txs txTimestampSource).length ≤ refIdx then
      .error "Reference time index out of bounds"
    else
      .ok (ccgTimebase positionTs txs txTimestampSource, interpPos, cdfs.1,
        cdfs.2, gainsFromComponents interpPos cdfs.1 cdfs.2
          (ccgTimebase positionTs txs txTimestampSource).length refIdx)

/-! ### Decision-gate and price-compare fragments of `src/core/alert_logic.py` -/

/-- The decision-gate configuration consumed by `evaluate_once`. -/
structure DecisionGateParams where
  minPoints : ℕ
  polynomialOrder : ℕ
  kSigma : ℚ
  thresholdMode : String
  centralConfidence : ℚ
  sigmaEpsilon : ℚ
  excludeLastForSigma : Bool
  method : String
  deriving DecidableEq

/-- Residual-gate evaluation of the keyword-reference path of `evaluate_once`
(`alert_logic.py`, corrected-position basis after windowing), returning the
decision together with the `gate_applied` flag.  `fitFn` stands for
`np.polyfit` followed by evaluation, `stdFn` for `np.std` and `quantFn` for
`np.quantile`; the branch and threshold logic is embedded directly.  With too
few samples the gate is skipped and the decision is an unconditional HOLD. -/
def residualGateKeyword (dg : DecisionGateParams) (cpVals xHours : List ℚ)
    (fitFn : ℕ → List ℚ → List ℚ → List ℚ) (stdFn : List ℚ → ℚ)
    (quantFn : List ℚ → ℚ → ℚ) : ℤ × Bool :=
  if cpVals.length < max dg.minPoints (dg.polynomialOrder + 1) then (0, false)
  else
    let fitted := if pyLower dg.method == "median" then
        List.replicate cpVals.length (medianQ cpVals)
      else fitFn dg.polynomialOrder xHours cpVals
    let residuals := cpVals.zipWith (· - ·) fitted
    let resEst := if dg.excludeLastForSigma ∧ 1 < residuals.length then
        residuals.dropLast
      else residuals
    let sigma := stdFn resEst
    if sigma < dg.sigmaEpsilon ∧ dg.thresholdMode == "stddev" then (0, false)
    else
      let rNow := residuals.getLastD 0
      let triggered : ℤ :=
        if dg.thresholdMode == "percentile" then
          let pLow := max 0 ((1 - dg.centralConfidence) / 2)
          let pHigh := min 1 (1 - pLow)
          let thrHigh := if 1 < resEst.length then quantFn resEst pHigh else 0
          if thrHigh < rNow then 1 else 0
        else if 0 < sigma ∧ dg.kSigma * sigma < rNow then 1 else 0
      (triggered, true)

/-- Residual-gate evaluation of the data_range fallback path of
`evaluate_once`.  Identical fit and threshold logic, but when the gate is
skipped (too few samples, or degenerate sigma) the substituted decision is the
baseline non-negativity decision on the total wallet cap. -/
def residualGateFallback (dg : DecisionGateParams) (cpVals xHours : List ℚ)
    (totalWmax : ℚ) (fitFn : ℕ → List ℚ → List ℚ → List ℚ)
    (stdFn : List ℚ → ℚ) (quantFn : List ℚ → ℚ → ℚ) : ℤ × Bool :=
  if cpVals.length < max dg.minPoints (dg.polynomialOrder + 1) then
    (if 0 < totalWmax then 1 else 0, false)
  else
    let fitted := fitFn dg.polynomialOrder xHours cpVals
    let residuals := cpVals.zipWith (· - ·) fitted
    let resEst := if dg.excludeLastForSigma ∧ 1 < residuals.length then
        residuals.dropLast
      else residuals
    let sigma := stdFn resEst
    if sigma < dg.sigmaEpsilon ∧ dg.thresholdMode == "stddev" then
      (if 0 < totalWmax then 1 else 0, false)
    else
      let rNow := residuals.getLastD 0
      let triggered : ℤ :=
        if dg.thresholdMode == "percentile" then
          let pLow := max 0 ((1 - dg.centralConfidence) / 2)
          let pHigh := min 1 (1 - pLow)
          let thrHigh := if 1 < resEst.length then quantFn resEst pHigh else 0
          if thrHigh < rNow then 1 else 0
        else if 0 < sigma ∧ dg.kSigma * sigma < rNow then 1 else 0
      (triggered, true)

/-- The per-wallet gain pipeline inside `_calculate_per_wallet_wmax`: sort the
wallet's series by timestamp, keep the wallet's own transactions and run
`calculate_correct_gains` with reference index 0 and linear interpolation. -/
def walletGainsResult (allTxs : List Transaction) (alignmentMethod txSource : String)
    (cubicFn : ℚ → Option ℚ) (stdFn : List ℚ → ℚ) (walletAddr : String)
    (series : List (PyDateTime × ℚ)) :
    Except String (List PyDateTime × List ℚ × List ℚ × List ℚ × List ℚ) :=
  let sortedSeries := series.insertionSort
    (fun p q => p.1.instant ≤ q.1.instant)
  let walletTxs := allTxs.filter (fun tx => tx.walletAddress == walletAddr)
  calculateCorrectGains (sortedSeries.map Prod.fst) (sortedSeries.map Prod.snd)
    walletTxs 0 "linear" alignmentMethod txSource cubicFn stdFn

/-- `_calculate_per_wallet_wmax`: for each wallet with a non-empty series whose
gain pipeline succeeds, emit `(address, wmax, v_t1)` with
`wmax = max(0, c * last gain)` and `v_t1` the last sorted position value;
wallets with no data, or whose pipeline raises, are omitted. -/
def calcPerWalletWmax (walletSeries : List (String × List (PyDateTime × ℚ)))
    (allTxs : List Transaction) (c : ℚ) (alignmentMethod txSource : String)
    (cubicFn : ℚ → Option ℚ) (stdFn : List ℚ → ℚ) : List (String × ℚ × ℚ) :=
  match walletSeries with
  | [] => []
  | (addr, series) :: rest =>
    let tail := calcPerWalletWmax rest allTxs c alignmentMethod txSource cubicFn stdFn
    if series.isEmpty then tail
    else
      match walletGainsResult allTxs alignmentMethod txSource cubicFn stdFn addr series with
      | .error _ => tail
      | .ok r =>
        let gWallet := (r.2.2.2.2).getLastD 0
        let sortedSeries := series.insertionSort (fun p q => p.1.instant ≤ q.1.instant)
        (addr, max 0 (c * gWallet), (sortedSeries.map Prod.snd).getLastD 0) :: tail

/-- The per-wallet gains that contribute entries to the breakdown (same
filtering as `calcPerWalletWmax`). -/
def perWalletGains (walletSeries : List (String × List (PyDateTime × ℚ)))
    (allTxs : List Transaction) (alignmentMethod txSource : String)
    (cubicFn : ℚ → Option ℚ) (stdFn : List ℚ → ℚ) : List ℚ :=
  walletSeries.filterMap (fun p =>
    if p.2.isEmpty then none
    else
      match walletGainsResult allTxs alignmentMethod txSource cubicFn stdFn p.1 p.2 with
      | .error _ => none
      | .ok r => some ((r.2.2.2.2).getLastD 0))

/-- Effective price-compare configuration of the Phase C post-processing loop
(per-asset overrides already resolved into the mode and tolerance). -/
structure PriceCompareParams where
  persistenceThreshold : ℤ
  actionOnMismatch : String
  epsilonMode : String
  toleranceEpsilon : ℚ
  deriving DecidableEq

/-- Mismatch detection of the price-compare loop: spread of the fetched prices
against the absolute or relative tolerance (`delta_rel` is 0 when the maximum
price is not positive). -/
def priceMismatch (pc : PriceCompareParams) (prices : List ℚ) : Bool :=
  let maxP := prices.foldl max (prices.headD 0)
  let minP := prices.foldl min (prices.headD 0)
  let dAbs := maxP - minP
  let dRel := if 0 < maxP then dAbs / maxP else 0
  if pyLower pc.epsilonMode == "absolute" then
    decide (pc.toleranceEpsilon < dAbs)
  else decide (pc.toleranceEpsilon < dRel)

/-- One asset's pass of the Phase C price-compare loop in `evaluate_once`:
given the persisted mismatch count, the gate decision and the prices fetched
per logical source, returns the updated count, the (possibly overridden)
decision and the mismatch/unavailable telemetry flags.  ERROR decisions are
skipped; with fewer than two prices the comparison is unavailable and nothing
is overridden or counted. -/
def priceCompareStep (pc : PriceCompareParams) (prevCount : ℕ) (decision : ℤ)
    (prices : List ℚ) : ℕ × ℤ × Option ℤ × Option ℤ :=
  if decision == -1 then (prevCount, decision, none, none)
  else if prices.length < 2 then (prevCount, decision, some 0, some 1)
  else
    let mismatch := priceMismatch pc prices
    let curr := if mismatch then prevCount + 1 else 0
    let dec2 : ℤ :=
      if mismatch ∧ pc.persistenceThreshold ≤ (curr : ℤ) ∧
          pc.actionOnMismatch == "hold" then 0
      else decision
    (curr, dec2, some (if mismatch then 1 else 0), some 0)

/-! ### Concrete instantiations used to exercise the embeddings -/

/-- A cubic interpolant that is everywhere NaN (degenerate instantiation of the
scipy oracle; the claims exercised with it never enter the cubic branch or are
robust to it). -/
def noCubic : ℚ → Option ℚ := fun _ => none

/-- A trivially-zero instantiation of the numpy `std` oracle. -/
def zeroStd : List ℚ → ℚ := fun _ => 0

/-- A trivially-zero instantiation of the `np.polyfit`-and-evaluate oracle. -/
def zeroFit : ℕ → List ℚ → List ℚ → List ℚ := fun _ _ l => l.map (fun _ => 0)

/-- A trivially-zero instantiation of the `np.quantile` oracle. -/
def zeroQuant : List ℚ → ℚ → ℚ := fun _ _ => 0

/-- A deposit of the given amount at epoch second 100 (UTC-aware). -/
def depositAt100 (a : ℚ) : Transaction :=
  ⟨⟨100, some 0⟩, "w", "m", "USDC", a, "deposit", ⟨100, some 0⟩⟩

/-- Decision-gate parameters with `min_points = 3` and polynomial order 1. -/
def dgEx : DecisionGateParams :=
  ⟨3, 1, 2, "stddev", 68 / 100, 1 / 1000000, true, "polynomial_fit"⟩

/-- Two wallets sampled at the same two instants, one gaining 10 and one
losing 10, with no transactions. -/
def wsEx : List (String × List (PyDateTime × ℚ)) :=
  [("w1", [(⟨0, some 0⟩, 100), (⟨3600, some 0⟩, 110)]),
   ("w2", [(⟨0, some 0⟩, 100), (⟨3600, some 0⟩, 90)])]

/-- Price-compare configuration of spec Scenario D: relative tolerance 0.01,
persistence threshold 2, action hold. -/
def pcEx : PriceCompareParams := ⟨2, "hold", "relative", 1 / 100⟩

/-- The policy-resolved timebase index of a transaction: the exact-match index
passed through `choose_index_for_tx`, or `none` when the exact lookup fails and
the event is dropped. -/
def resolvedIdx (method : String) (tb : List PyDateTime)
    (posMask : Option (List Bool)) (interpPos : Option (List ℚ))
    (windowBins : ℕ) (zThreshold alpha beta : ℚ) (stdFn : List ℚ → ℚ)
    (tx : Transaction) : Option ℕ :=
  (findMatchIdx tb tx.timestamp).map
    (fun b => chooseIndexForTx method tb posMask interpPos windowBins zThreshold
      alpha beta stdFn b tx)

/-- Whether a transaction is a deposit whose policy-resolved index is `i`. -/
def hitsDeposit (method : String) (tb : List PyDateTime)
    (posMask : Option (List Bool)) (interpPos : Option (List ℚ))
    (windowBins : ℕ) (zThreshold alpha beta : ℚ) (stdFn : List ℚ → ℚ)
    (i : ℕ) (tx : Transaction) : Bool :=
  tx.transactionType == "deposit" &&
    (resolvedIdx method tb posMask interpPos windowBins zThreshold alpha beta
      stdFn tx == some i)

/-- Whether a transaction is a withdrawal whose policy-resolved index is `i`. -/
def hitsWithdrawal (method : String) (tb : List PyDateTime)
    (posMask : Option (List Bool)) (interpPos : Option (List ℚ))
    (windowBins : ℕ) (zThreshold alpha beta : ℚ) (stdFn : List ℚ → ℚ)
    (i : ℕ) (tx : Transaction) : Bool :=
  tx.transactionType == "withdrawal" &&
    (resolvedIdx method tb posMask interpPos windowBins zThreshold alpha beta
      stdFn tx == some i)

/-! ### Shared helper lemmas -/

theorem getD_map_of_lt {α β : Type} (f : α → β) (l : List α) (i : ℕ) (d : α)
    (d2 : β) (h : i < l.length) : (l.map f).getD i d2 = f (l.getD i d) := by
  rw [List.getD_eq_getElem?_getD, List.getD_eq_getElem?_getD, List.getElem?_map,
    List.getElem?_eq_getElem h]
  simp

theorem getD_replicate_zero (n i : ℕ) : (List.replicate n (0 : ℚ)).getD i 0 = 0 := by
  rw [List.getD_eq_getElem?_getD]
  by_cases h : i < n
  · rw [List.getElem?_eq_getElem (by simpa using h)]
    simp
  · rw [List.getElem?_eq_none (by simpa using Nat.le_of_not_lt h)]
    rfl

theorem findMatchIdx_isSome_of_mem {l : List PyDateTime} {t x : PyDateTime}
    (hx : x ∈ l) (h : pyEq x t = true) : ∃ i, findMatchIdx l t = some i := by
  induction l with
  | nil => cases hx
  | cons a rest ih =>
    by_cases ha : pyEq a t = true
    · exact ⟨0, by simp [findMatchIdx, ha]⟩
    · rcases List.mem_cons.mp hx with rfl | hxr
      · exact absurd h ha
      · obtain ⟨i, hi⟩ := ih hxr
        exact ⟨i + 1, by simp [findMatchIdx, ha, hi]⟩

/-! ### C5 — behaviour of the pipeline on empty inputs -/

/-- C5 counterexample: with no position samples and no transactions,
`calculate_correct_gains` does not return empty outputs — it raises (the
empty sample set is rejected by `np.interp`, surfaced here as an error), so
the claim that it does not crash is false. -/
theorem c5_counterexample_empty_inputs_raise :
    calculateCorrectGains [] [] [] 0 "linear" "none" "timestamp" noCubic zeroStd =
      .error "array of sample points is empty" := by
  rfl

/-- C5 amended: on empty inputs the Timebase Builder returns an empty
timebase, and the transaction mapper and CDF accumulator return empty
outputs, but `calculate_correct_gains` itself raises a ValueError (empty
sample set rejected by interpolation; the reference-index bounds check would
likewise reject index 0 against an empty timebase) instead of returning
empty outputs. -/
theorem c5_empty_timebase_behaviour :
    createUnifiedTimebase [] [] = [] ∧
    createTransactionVectors [] [] none [] "none" 8 3 (3 / 10) (3 / 2) zeroStd
      = ([], []) ∧
    cumsum [] = [] ∧
    calculateCorrectGains [] [] [] 0 "linear" "none" "timestamp" noCubic zeroStd
      = .error "array of sample points is empty" :=
  ⟨rfl, rfl, rfl, rfl⟩

/-! ### C3 — exact-match lookup of transaction timestamps -/

/-- C3 counterexample: a timezone-naive transaction timestamp is included in
the unified timebase (as its UTC-decorated normalisation), yet Python equality
between a naive and an aware datetime is always false, so the exact-match
lookup fails and the event is dropped: the deposit of 5 never reaches the
deposit vector. -/
theorem c3_counterexample_naive_timestamp_dropped :
    createUnifiedTimebase [] [⟨100, none⟩] = [⟨100, some 0⟩] ∧
    findMatchIdx (createUnifiedTimebase [] [⟨100, none⟩]) ⟨100, none⟩ = none ∧
    createTransactionVectors
      [⟨⟨100, none⟩, "w", "m", "USDC", 5, "deposit", ⟨100, none⟩⟩]
      (createUnifiedTimebase [] [⟨100, none⟩]) none [] "none" 8 3 (3 / 10) (3 / 2)
      zeroStd = ([0], [0]) := by
  refine ⟨rfl, rfl, rfl⟩

/-- C3 amended: the exact-match lookup in the unified timebase succeeds for
every transaction timestamp that was included in the Timebase Builder inputs
and is timezone-aware (normalisation preserves its instant and aware datetimes
compare by instant); timezone-naive timestamps, by contrast, never match and
the event is dropped as unmatched. -/
theorem c3_aware_timestamps_always_match (positionTs transactionTs : List PyDateTime)
    (t : PyDateTime) (o : ℤ) (ht : t ∈ transactionTs) (ho : t.tz = some o) :
    ∃ i, findMatchIdx (createUnifiedTimebase positionTs transactionTs) t = some i := by
  have hn : normalizeTimestamp t = ⟨t.wall - o, some 0⟩ := by
    simp [normalizeTimestamp, ho]
  have hw : (t.wall - o) ∈ ((positionTs.map normalizeTimestamp) ++
      (transactionTs.map normalizeTimestamp)).map PyDateTime.wall := by
    have h1 : normalizeTimestamp t ∈ (positionTs.map normalizeTimestamp) ++
        (transactionTs.map normalizeTimestamp) :=
      List.mem_append_right _ (List.mem_map_of_mem _ ht)
    have h2 := List.mem_map_of_mem PyDateTime.wall h1
    rwa [hn] at h2
  have hmem : (⟨t.wall - o, some 0⟩ : PyDateTime) ∈
      createUnifiedTimebase positionTs transactionTs := by
    unfold createUnifiedTimebase
    apply List.mem_map_of_mem (fun w => (⟨w, some 0⟩ : PyDateTime))
    exact ((List.perm_insertionSort _ _).mem_iff).mpr (List.mem_dedup.mpr hw)
  have hpe : pyEq ⟨t.wall - o, some 0⟩ t = true := by
    simp [pyEq, ho]
  exact findMatchIdx_isSome_of_mem hmem hpe

/-- C3 witness: the amended theorem applied to a concrete aware timestamp. -/
theorem c3_aware_timestamps_always_match_witness :
    ∃ i, findMatchIdx (createUnifiedTimebase [] [⟨100, some 0⟩]) ⟨100, some 0⟩
      = some i :=
  c3_aware_timestamps_always_match [] [⟨100, some 0⟩] ⟨100, some 0⟩ 0
    (List.mem_singleton.mpr rfl) rfl

/-! ### C2 — collision behaviour of the deposit/withdrawal vectors -/

theorem getD_set_self (l : List ℚ) (i : ℕ) (x : ℚ) (h : i < l.length) :
    (l.set i x).getD i 0 = x := by
  rw [List.getD_eq_getElem?_getD, List.getElem?_set_self h]
  rfl

theorem getD_set_ne (l : List ℚ) (i j : ℕ) (x : ℚ) (h : j ≠ i) :
    (l.set j x).getD i 0 = l.getD i 0 := by
  rw [List.getD_eq_getElem?_getD, List.getElem?_set_ne h,
    ← List.getD_eq_getElem?_getD]

theorem applyOneTx_lengths (method : String) (tb : List PyDateTime)
    (posMask : Option (List Bool)) (interpPos : Option (List ℚ))
    (wb : ℕ) (zt a b : ℚ) (stdFn : List ℚ → ℚ) (vecs : List ℚ × List ℚ)
    (tx : Transaction) :
    (applyOneTx method tb posMask interpPos wb zt a b stdFn vecs tx).1.length
        = vecs.1.length ∧
    (applyOneTx method tb posMask interpPos wb zt a b stdFn vecs tx).2.length
        = vecs.2.length := by
  unfold applyOneTx
  cases findMatchIdx tb tx.timestamp with
  | none => exact ⟨rfl, rfl⟩
  | some bidx =>
    by_cases h1 : (tx.transactionType == "deposit") = true <;>
      by_cases h2 : (tx.transactionType == "withdrawal") = true <;>
        simp [h1, h2]

theorem applyTxs_lengths (method : String) (tb : List PyDateTime)
    (posMask : Option (List Bool)) (interpPos : Option (List ℚ))
    (wb : ℕ) (zt a b : ℚ) (stdFn : List ℚ → ℚ) (txs : List Transaction)
    (vecs : List ℚ × List ℚ) :
    (txs.foldl (applyOneTx method tb posMask interpPos wb zt a b stdFn) vecs).1.length
        = vecs.1.length ∧
    (txs.foldl (applyOneTx method tb posMask interpPos wb zt a b stdFn) vecs).2.length
        = vecs.2.length := by
  induction txs generalizing vecs with
  | nil => exact ⟨rfl, rfl⟩
  | cons tx rest ih =>
    simp only [List.foldl_cons]
    obtain ⟨ha, hb⟩ := ih (applyOneTx method tb posMask interpPos wb zt a b stdFn vecs tx)
    obtain ⟨hc, hd⟩ := applyOneTx_lengths method tb posMask interpPos wb zt a b stdFn vecs tx
    exact ⟨ha.trans hc, hb.trans hd⟩

/-- The transaction-mapping loop writes by assignment, so the entry at index
`i` after the loop is the amount of the last event whose resolved index is `i`
(the initial entry when there is none). -/
theorem applyTxs_last_writer (method : String) (tb : List PyDateTime)
    (posMask : Option (List Bool)) (interpPos : Option (List ℚ))
    (wb : ℕ) (zt a b : ℚ) (stdFn : List ℚ → ℚ) (txs : List Transaction)
    (D W : List ℚ) (i : ℕ) (hD : i < D.length) (hW : i < W.length) :
    (txs.foldl (applyOneTx method tb posMask interpPos wb zt a b stdFn) (D, W)).1.getD i 0
        = ((txs.filter (hitsDeposit method tb posMask interpPos wb zt a b stdFn i)).getLast?.elim
            (D.getD i 0) (fun tx => tx.amount)) ∧
    (txs.foldl (applyOneTx method tb posMask interpPos wb zt a b stdFn) (D, W)).2.getD i 0
        = ((txs.filter (hitsWithdrawal method tb posMask interpPos wb zt a b stdFn i)).getLast?.elim
            (W.getD i 0) (fun tx => |tx.amount|)) := by
  induction txs using List.reverseRecOn with
  | nil => exact ⟨rfl, rfl⟩
  | append_singleton txs tx ih =>
    obtain ⟨ih1, ih2⟩ := ih
    rw [List.foldl_append, List.foldl_cons, List.foldl_nil, List.filter_append,
      List.filter_append]
    obtain ⟨hl1, hl2⟩ := applyTxs_lengths method tb posMask interpPos wb zt a b stdFn txs (D, W)
    set acc := txs.foldl (applyOneTx method tb posMask interpPos wb zt a b stdFn) (D, W) with hacc
    cases hfm : findMatchIdx tb tx.timestamp with
    | none =>
      have hhd : hitsDeposit method tb posMask interpPos wb zt a b stdFn i tx = false := by
        simp [hitsDeposit, resolvedIdx, hfm]
      have hhw : hitsWithdrawal method tb posMask interpPos wb zt a b stdFn i tx = false := by
        simp [hitsWithdrawal, resolvedIdx, hfm]
      simp only [applyOneTx, hfm, List.filter_cons, hhd, hhw, Bool.false_eq_true,
        if_false, List.filter_nil, List.append_nil]
      exact ⟨ih1, ih2⟩
    | some bidx =>
      have hres : resolvedIdx method tb posMask interpPos wb zt a b stdFn tx
          = some (chooseIndexForTx method tb posMask interpPos wb zt a b stdFn bidx tx) := by
        simp [resolvedIdx, hfm]
      set j := chooseIndexForTx method tb posMask interpPos wb zt a b stdFn bidx tx with hj
      by_cases hd : (tx.transactionType == "deposit") = true
      · have hwd : (tx.transactionType == "withdrawal") = false := by
          have := (beq_iff_eq.mp hd)
          simp [this]
        have hhw : hitsWithdrawal method tb posMask interpPos wb zt a b stdFn i tx = false := by
          simp [hitsWithdrawal, hwd]
        by_cases hji : j = i
        · have hhd : hitsDeposit method tb posMask interpPos wb zt a b stdFn i tx = true := by
            simp [hitsDeposit, hd, hres, hji]
          constructor
          · simp only [applyOneTx, hfm, hd, if_true, List.filter_cons, hhd,
              List.filter_nil, if_true, List.getLast?_concat]
            rw [← hj, hji]
            exact getD_set_self acc.1 i tx.amount (by rw [hl1]; exact hD)
          · simp only [applyOneTx, hfm, hd, if_true, List.filter_cons, hhw,
              Bool.false_eq_true, if_false, List.filter_nil, List.append_nil]
            exact ih2
        · have hhd : hitsDeposit method tb posMask interpPos wb zt a b stdFn i tx = false := by
            simp [hitsDeposit, hres, hji]
          constructor
          · simp only [applyOneTx, hfm, hd, if_true, List.filter_cons, hhd,
              Bool.false_eq_true, if_false, List.filter_nil, List.append_nil]
            rw [← hj]
            rw [getD_set_ne acc.1 i j tx.amount hji]
            exact ih1
          · simp only [applyOneTx, hfm, hd, if_true, List.filter_cons, hhw,
              Bool.false_eq_true, if_false, List.filter_nil, List.append_nil]
            exact ih2
      · by_cases hw : (tx.transactionType == "withdrawal") = true
        · have hhd : hitsDeposit method tb posMask interpPos wb zt a b stdFn i tx = false := by
            simp [hitsDeposit, hd]
          by_cases hji : j = i
          · have hhw : hitsWithdrawal method tb posMask interpPos wb zt a b stdFn i tx = true := by
              simp [hitsWithdrawal, hw, hres, hji]
            constructor
            · simp only [applyOneTx, hfm, hd, Bool.false_eq_true, if_false, hw,
                if_true, List.filter_cons, hhd, List.filter_nil, List.append_nil]
              exact ih1
            · simp only [applyOneTx, hfm, hd, Bool.false_eq_true, if_false, hw,
                if_true, List.filter_cons, hhw, List.filter_nil, List.getLast?_concat]
              rw [← hj, hji]
              exact getD_set_self acc.2 i |tx.amount| (by rw [hl2]; exact hW)
          · have hhw : hitsWithdrawal method tb posMask interpPos wb zt a b stdFn i tx = false := by
              simp [hitsWithdrawal, hres, hji]
            constructor
            · simp only [applyOneTx, hfm, hd, Bool.false_eq_true, if_false, hw,
                if_true, List.filter_cons, hhd, List.filter_nil, List.append_nil]
              exact ih1
            · simp only [applyOneTx, hfm, hd, Bool.false_eq_true, if_false, hw,
                if_true, List.filter_cons, hhw, List.filter_nil, List.append_nil]
              rw [← hj]
              rw [getD_set_ne acc.2 i j |tx.amount| hji]
              exact ih2
        · have hhd : hitsDeposit method tb posMask interpPos wb zt a b stdFn i tx = false := by
            simp [hitsDeposit, hd]
          have hhw : hitsWithdrawal method tb posMask interpPos wb zt a b stdFn i tx = false := by
            simp [hitsWithdrawal, hw]
          simp only [applyOneTx, hfm, hd, Bool.false_eq_true, if_false, hw,
            List.filter_cons, hhd, hhw, List.filter_nil, List.append_nil]
          exact ⟨ih1, ih2⟩

/-- C2 counterexample: two deposits (amounts 5 and 7) carrying the same
timestamp both resolve to index 0 of a one-point timebase, yet the deposit
vector ends up holding 7 — the last event's amount — not the sum 12 the claim
requires. -/
theorem c2_counterexample_same_index_overwrites :
    (createTransactionVectors [depositAt100 5, depositAt100 7]
      (createUnifiedTimebase [] [⟨100, some 0⟩]) none [] "none" 8 3 (3 / 10)
      (3 / 2) zeroStd).1 = [7] ∧
    ((7 : ℚ) ≠ 5 + 7) := by
  refine ⟨?_, by norm_num⟩
  rfl

/-- C2 amended: when several events resolve to the same timebase index, the
deposit (respectively withdrawal) vector at that index holds the LAST such
event's amount (magnitude for withdrawals) — writes are assignments that
overwrite earlier events, not accumulating sums; the entry is 0 when no event
resolves there. -/
theorem c2_same_index_last_event_wins (txs : List Transaction)
    (tb : List PyDateTime) (interpPos : Option (List ℚ))
    (posTsSet : List PyDateTime) (am : String) (wb : ℕ) (zt a b : ℚ)
    (stdFn : List ℚ → ℚ) (i : ℕ) (hi : i < tb.length) :
    (createTransactionVectors txs tb interpPos posTsSet am wb zt a b stdFn).1.getD i 0
        = ((txs.filter (hitsDeposit (normalizeMethod am) tb (buildPosMask posTsSet tb)
            interpPos wb zt a b stdFn i)).getLast?.elim 0 (fun tx => tx.amount)) ∧
    (createTransactionVectors txs tb interpPos posTsSet am wb zt a b stdFn).2.getD i 0
        = ((txs.filter (hitsWithdrawal (normalizeMethod am) tb (buildPosMask posTsSet tb)
            interpPos wb zt a b stdFn i)).getLast?.elim 0 (fun tx => |tx.amount|)) := by
  have h := applyTxs_last_writer (normalizeMethod am) tb (buildPosMask posTsSet tb)
    interpPos wb zt a b stdFn txs (List.replicate tb.length 0)
    (List.replicate tb.length 0) i (by simpa using hi) (by simpa using hi)
  rw [getD_replicate_zero] at h
  unfold createTransactionVectors
  exact h

/-- C2 witness: the amended theorem applied to the two colliding deposits. -/
theorem c2_same_index_last_event_wins_witness :
    (0 : ℕ) < (createUnifiedTimebase [] [⟨100, some 0⟩]).length ∧
    ((createTransactionVectors [depositAt100 5, depositAt100 7]
        (createUnifiedTimebase [] [⟨100, some 0⟩]) none [] "none" 8 3 (3 / 10)
        (3 / 2) zeroStd).1.getD 0 0
      = (([depositAt100 5, depositAt100 7].filter
          (hitsDeposit (normalizeMethod "none") (createUnifiedTimebase [] [⟨100, some 0⟩])
            (buildPosMask [] (createUnifiedTimebase [] [⟨100, some 0⟩])) none 8 3 (3 / 10)
            (3 / 2) zeroStd 0)).getLast?.elim 0 (fun tx => tx.amount)) ∧
    (createTransactionVectors [depositAt100 5, depositAt100 7]
        (createUnifiedTimebase [] [⟨100, some 0⟩]) none [] "none" 8 3 (3 / 10)
        (3 / 2) zeroStd).2.getD 0 0
      = (([depositAt100 5, depositAt100 7].filter
          (hitsWithdrawal (normalizeMethod "none") (createUnifiedTimebase [] [⟨100, some 0⟩])
            (buildPosMask [] (createUnifiedTimebase [] [⟨100, some 0⟩])) none 8 3 (3 / 10)
            (3 / 2) zeroStd 0)).getLast?.elim 0 (fun tx => |tx.amount|))) :=
  ⟨by decide,
    c2_same_index_last_event_wins [depositAt100 5, depositAt100 7]
      (createUnifiedTimebase [] [⟨100, some 0⟩]) none [] "none" 8 3 (3 / 10)
      (3 / 2) zeroStd 0 (by decide)⟩

/-! ### C1 — the corrected gain formula -/

theorem getD_range_map (f : ℕ → ℚ) (n i : ℕ) (hi : i < n) :
    ((List.range n).map f).getD i 0 = f i := by
  rw [getD_map_of_lt f (List.range n) i 0 0 (by simpa using hi)]
  congr 1
  rw [List.getD_eq_getElem?_getD, List.getElem?_range hi]
  rfl

/-- C1: whenever `calculate_correct_gains` succeeds (non-empty unified
timebase, valid reference index), the returned gain series satisfies
`gain[i] = P[i] - P[t0] - (D[i] - D[t0]) + (W[i] - W[t0])` at every index,
and in particular `gain[t0] = 0` — for every alignment policy, transaction
set and interpolation-oracle behaviour. -/
theorem c1_gain_formula (positionTs : List PyDateTime) (positionVals : List ℚ)
    (txs : List Transaction) (refIdx : ℕ) (im am ts : String)
    (cubicFn : ℚ → Option ℚ) (stdFn : List ℚ → ℚ)
    (tb : List PyDateTime) (P Dc Wc g : List ℚ) (i : ℕ)
    (h : calculateCorrectGains positionTs positionVals txs refIdx im am ts
      cubicFn stdFn = .ok (tb, P, Dc, Wc, g)) (hi : i < tb.length) :
    refIdx < tb.length ∧
    g.getD i 0 = P.getD i 0 - P.getD refIdx 0 - (Dc.getD i 0 - Dc.getD refIdx 0)
      + (Wc.getD i 0 - Wc.getD refIdx 0) ∧
    g.getD refIdx 0 = 0 := by
  unfold calculateCorrectGains at h
  cases hI : interpolatePositions positionTs positionVals
      (ccgTimebase positionTs txs ts) im cubicFn with
  | error e =>
    rw [hI] at h
    exact absurd h (by simp)
  | ok interpPos =>
    rw [hI] at h
    simp only at h
    by_cases href : (ccgTimebase positionTs txs ts).length ≤ refIdx
    · rw [if_pos href] at h
      exact absurd h (by simp)
    · rw [if_neg href] at h
      simp only [Except.ok.injEq, Prod.mk.injEq] at h
      obtain ⟨htb, hP, hDc, hWc, hg⟩ := h
      have hlen : refIdx < tb.length := by
        rw [← htb]
        omega
      have hfmla : ∀ k, k < tb.length →
          g.getD k 0 = P.getD k 0 - P.getD refIdx 0 -
            (Dc.getD k 0 - Dc.getD refIdx 0) +
            (Wc.getD k 0 - Wc.getD refIdx 0) := by
        intro k hk
        rw [← hg, ← hP, ← hDc, ← hWc]
        unfold gainsFromComponents
        rw [getD_range_map _ _ k (htb ▸ hk)]
      refine ⟨hlen, hfmla i hi, ?_⟩
      rw [hfmla refIdx hlen]
      ring

/-- C1 witness: a concrete successful evaluation with one position sample. -/
theorem c1_gain_formula_witness :
    calculateCorrectGains [⟨0, some 0⟩] [100] [] 0 "linear" "none" "timestamp"
        noCubic zeroStd = .ok ([⟨0, some 0⟩], [100], [0], [0], [0]) ∧
    (0 : ℕ) < 1 ∧
    (0 < ([⟨0, some 0⟩] : List PyDateTime).length ∧
      ([0] : List ℚ).getD 0 0 = ([100] : List ℚ).getD 0 0 - ([100] : List ℚ).getD 0 0
        - (([0] : List ℚ).getD 0 0 - ([0] : List ℚ).getD 0 0)
        + (([0] : List ℚ).getD 0 0 - ([0] : List ℚ).getD 0 0) ∧
      ([0] : List ℚ).getD 0 0 = 0) := by
  have hok : calculateCorrectGains [⟨0, some 0⟩] [100] [] 0 "linear" "none"
      "timestamp" noCubic zeroStd = .ok ([⟨0, some 0⟩], [100], [0], [0], [0]) := by
    norm_num [calculateCorrectGains, ccgTimebase, ccgTransactionTs, ccgUseCreated,
      ccgTxsForMap, ccgCdfs, gainsFromComponents, createUnifiedTimebase,
      interpolatePositions, npInterpPairs, normalizeTimestamp, PyDateTime.instant,
      pyLower, pyStrip, createTransactionVectors, normalizeMethod, buildPosMask,
      cumsum, cumsumFrom, List.insertionSort, List.orderedInsert, findMatchIdx,
      pyEq, noCubic, zeroStd, List.range, List.range.loop]
  exact ⟨hok, by decide,
    c1_gain_formula [⟨0, some 0⟩] [100] [] 0 "linear" "none" "timestamp"
      noCubic zeroStd [⟨0, some 0⟩] [100] [0] [0] [0] 0 hok (by decide)⟩

/-! ### C4 — insufficient-data substitution in the residual gate -/

/-- C4 counterexample: in the keyword-reference path, when the windowed basis
has fewer than `max(min_points, polynomial_order + 1)` samples the gate is
skipped, but the substituted decision is an unconditional HOLD (0) — not the
baseline non-negativity decision — even though the total wallet cap is
positive (5 > 0), for which the claim demands WITHDRAW_OK (1). -/
theorem c4_counterexample_keyword_path_holds :
    residualGateKeyword dgEx [1, 2] [0, 1] zeroFit zeroStd zeroQuant = (0, false) ∧
    (0 : ℚ) < 5 ∧
    (residualGateKeyword dgEx [1, 2] [0, 1] zeroFit zeroStd zeroQuant).1 ≠
      (if (0 : ℚ) < 5 then 1 else 0) := by
  refine ⟨rfl, by norm_num, ?_⟩
  norm_num [residualGateKeyword, dgEx]

/-- C4 amended: with fewer than `max(min_points, polynomial_order + 1)`
samples after windowing, gate evaluation is skipped in both paths, but the
substituted decisions differ: the data_range fallback path substitutes the
baseline non-negativity decision (WITHDRAW_OK iff the total wmax over wallets
is positive), while the keyword-reference path substitutes an unconditional
HOLD (0). -/
theorem c4_insufficient_points_substitution (dg : DecisionGateParams)
    (cpVals xHours : List ℚ) (totalWmax : ℚ)
    (fitFn : ℕ → List ℚ → List ℚ → List ℚ) (stdFn : List ℚ → ℚ)
    (quantFn : List ℚ → ℚ → ℚ)
    (h : cpVals.length < max dg.minPoints (dg.polynomialOrder + 1)) :
    residualGateKeyword dg cpVals xHours fitFn stdFn quantFn = (0, false) ∧
    residualGateFallback dg cpVals xHours totalWmax fitFn stdFn quantFn =
      ((if 0 < totalWmax then 1 else 0), false) := by
  unfold residualGateKeyword residualGateFallback
  rw [if_pos h, if_pos h]
  exact ⟨rfl, rfl⟩

/-- C4 witness: the amended theorem at two samples against a three-sample
minimum with a positive total wallet cap. -/
theorem c4_insufficient_points_substitution_witness :
    ([1, 2] : List ℚ).length < max dgEx.minPoints (dgEx.polynomialOrder + 1) ∧
    (residualGateKeyword dgEx [1, 2] [0, 1] zeroFit zeroStd zeroQuant = (0, false) ∧
      residualGateFallback dgEx [1, 2] [0, 1] 5 zeroFit zeroStd zeroQuant =
        ((if (0 : ℚ) < 5 then 1 else 0), false)) :=
  ⟨by decide,
    c4_insufficient_points_substitution dgEx [1, 2] [0, 1] 5 zeroFit zeroStd
      zeroQuant (by decide)⟩

/-! ### C7 — price-mismatch hysteresis -/

/-- C7: for a non-ERROR asset with at least two source prices, the mismatch
counter becomes previous+1 on a mismatch and 0 on a match, and (with action
"hold") the decision is forced to HOLD exactly when the mismatch holds and the
updated counter reaches the persistence threshold; with fewer than two prices
the comparison is unavailable and nothing is overridden or counted.  With
threshold 2, the first mismatching cycle leaves the decision alone and the
second consecutive one forces HOLD. -/
theorem c7_price_mismatch_hysteresis (pc : PriceCompareParams) (prevCount : ℕ)
    (decision d2 : ℤ) (prices : List ℚ)
    (hdec : decision ≠ -1) (hd2 : d2 ≠ -1)
    (hact : pc.actionOnMismatch = "hold") :
    (2 ≤ prices.length →
      (priceCompareStep pc prevCount decision prices).1 =
        (if priceMismatch pc prices then prevCount + 1 else 0) ∧
      (priceCompareStep pc prevCount decision prices).2.1 =
        (if priceMismatch pc prices ∧ pc.persistenceThreshold ≤
            ((priceCompareStep pc prevCount decision prices).1 : ℤ)
          then 0 else decision)) ∧
    (prices.length < 2 →
      priceCompareStep pc prevCount decision prices =
        (prevCount, decision, some 0, some 1)) ∧
    (pc.persistenceThreshold = 2 → 2 ≤ prices.length →
      priceMismatch pc prices = true →
      (priceCompareStep pc 0 decision prices).1 = 1 ∧
      (priceCompareStep pc 0 decision prices).2.1 = decision ∧
      (priceCompareStep pc 1 d2 prices).1 = 2 ∧
      (priceCompareStep pc 1 d2 prices).2.1 = 0) := by
  have h1 : (decision == -1) = false := by
    simpa using hdec
  have h3 : (d2 == -1) = false := by
    simpa using hd2
  have hah : (pc.actionOnMismatch == "hold") = true := by
    simpa using hact
  refine ⟨?_, ?_, ?_⟩
  · intro hlen
    have h2 : ¬(prices.length < 2) := by omega
    cases hm : priceMismatch pc prices with
    | false => simp [priceCompareStep, h1, h2, hm]
    | true => simp [priceCompareStep, h1, h2, hm, hah]
  · intro hlen
    simp [priceCompareStep, h1, hlen]
  · intro hthr hlen hm
    have h2 : ¬(prices.length < 2) := by omega
    have hc1 : ¬(pc.persistenceThreshold ≤ ((0 : ℕ) + 1 : ℤ)) := by
      rw [hthr]; norm_num
    have hc2 : pc.persistenceThreshold ≤ ((1 : ℕ) + 1 : ℤ) := by
      rw [hthr]; norm_num
    refine ⟨?_, ?_, ?_, ?_⟩
    · simp [priceCompareStep, h1, h2, hm]
    · simp [priceCompareStep, h1, h2, hm, hah]
      norm_num [hthr]
    · simp [priceCompareStep, h3, h2, hm]
    · simp [priceCompareStep, h3, h2, hm, hah]
      norm_num [hthr]

/-- C7 witness: Scenario D — two sources at 1.00 and 1.05 with relative
tolerance 0.01 and persistence threshold 2. -/
theorem c7_price_mismatch_hysteresis_witness :
    ((1 : ℤ) ≠ -1) ∧ ((1 : ℤ) ≠ -1) ∧ pcEx.actionOnMismatch = "hold" ∧
    (pcEx.persistenceThreshold = 2 → 2 ≤ ([1, 21 / 20] : List ℚ).length →
      priceMismatch pcEx [1, 21 / 20] = true →
      (priceCompareStep pcEx 0 1 [1, 21 / 20]).1 = 1 ∧
      (priceCompareStep pcEx 0 1 [1, 21 / 20]).2.1 = 1 ∧
      (priceCompareStep pcEx 1 1 [1, 21 / 20]).1 = 2 ∧
      (priceCompareStep pcEx 1 1 [1, 21 / 20]).2.1 = 0) ∧
    priceMismatch pcEx [1, 21 / 20] = true :=
  ⟨by decide, by decide, rfl,
    (c7_price_mismatch_hysteresis pcEx 0 1 1 [1, 21 / 20] (by decide) (by decide)
      rfl).2.2,
    by norm_num [priceMismatch, pcEx, pyLower, max_def, min_def]⟩

/-! ### C6 — monotonicity of the deposit and withdrawal CDFs -/

theorem cumsumFrom_getD (l : List ℚ) (acc : ℚ) (k : ℕ) (hk : k < l.length) :
    (cumsumFrom acc l).getD k 0 = acc + (l.take (k + 1)).sum := by
  induction l generalizing acc k with
  | nil => simp at hk
  | cons x rest ih =>
    cases k with
    | zero => simp [cumsumFrom]
    | succ m =>
      have hm : m < rest.length := by simpa using hk
      simp only [cumsumFrom, List.getD_cons_succ, List.take_succ_cons, List.sum_cons]
      rw [ih (acc + x) m hm]
      ring

theorem cumsum_le_of_nonneg (l : List ℚ) (hpos : ∀ x ∈ l, 0 ≤ x) (i j : ℕ)
    (hij : i ≤ j) (hj : j < l.length) :
    (cumsum l).getD i 0 ≤ (cumsum l).getD j 0 := by
  have hi : i < l.length := lt_of_le_of_lt hij hj
  rw [cumsum, cumsumFrom_getD l 0 i hi, cumsumFrom_getD l 0 j hj]
  simp only [zero_add]
  have h1 : l.take (i + 1) = (l.take (j + 1)).take (i + 1) := by
    rw [List.take_take]
    congr 1
    omega
  rw [h1]
  have h2 := List.take_append_drop (i + 1) (l.take (j + 1))
  have h3 : 0 ≤ ((l.take (j + 1)).drop (i + 1)).sum :=
    List.sum_nonneg (fun x hx =>
      hpos x (List.mem_of_mem_take (List.mem_of_mem_drop hx)))
  calc ((l.take (j + 1)).take (i + 1)).sum
      ≤ ((l.take (j + 1)).take (i + 1)).sum +
          ((l.take (j + 1)).drop (i + 1)).sum := by linarith
    _ = (l.take (j + 1)).sum := by rw [← List.sum_append, h2]

/-- Construction-invariant transactions only ever write non-negative values
(positive deposit amounts, withdrawal magnitudes), so the vectors stay
entrywise non-negative through the mapping loop. -/
theorem applyTxs_nonneg (method : String) (tb : List PyDateTime)
    (posMask : Option (List Bool)) (interpPos : Option (List ℚ))
    (wb : ℕ) (zt a b : ℚ) (stdFn : List ℚ → ℚ) (txs : List Transaction)
    (hval : ∀ tx ∈ txs, tx.valid) (D W : List ℚ)
    (hD : ∀ x ∈ D, 0 ≤ x) (hW : ∀ x ∈ W, 0 ≤ x) :
    (∀ x ∈ (txs.foldl (applyOneTx method tb posMask interpPos wb zt a b stdFn) (D, W)).1, 0 ≤ x) ∧
    (∀ x ∈ (txs.foldl (applyOneTx method tb posMask interpPos wb zt a b stdFn) (D, W)).2, 0 ≤ x) := by
  induction txs generalizing D W with
  | nil => exact ⟨hD, hW⟩
  | cons tx rest ih =>
    simp only [List.foldl_cons]
    have hv := hval tx (List.mem_cons_self _ _)
    have hrest : ∀ t ∈ rest, t.valid := fun t ht => hval t (List.mem_cons_of_mem _ ht)
    have hstep :
        (∀ x ∈ (applyOneTx method tb posMask interpPos wb zt a b stdFn (D, W) tx).1, 0 ≤ x) ∧
        (∀ x ∈ (applyOneTx method tb posMask interpPos wb zt a b stdFn (D, W) tx).2, 0 ≤ x) := by
      unfold applyOneTx
      cases findMatchIdx tb tx.timestamp with
      | none => exact ⟨hD, hW⟩
      | some bidx =>
        by_cases h1 : (tx.transactionType == "deposit") = true
        · simp only [h1, if_true]
          refine ⟨?_, hW⟩
          intro x hx
          rcases List.mem_or_eq_of_mem_set hx with hx2 | rfl
          · exact hD x hx2
          · have hpos := hv.2.2.2.2.1 (by simpa using h1)
            linarith
        · by_cases h2 : (tx.transactionType == "withdrawal") = true
          · simp only [h1, h2, Bool.false_eq_true, if_false, if_true]
            refine ⟨hD, ?_⟩
            intro x hx
            rcases List.mem_or_eq_of_mem_set hx with hx2 | rfl
            · exact hW x hx2
            · exact abs_nonneg _
          · simp only [h1, h2, Bool.false_eq_true, if_false]
            exact ⟨hD, hW⟩
    obtain ⟨hsD, hsW⟩ := hstep
    have hr := ih hrest
      (applyOneTx method tb posMask interpPos wb zt a b stdFn (D, W) tx).1
      (applyOneTx method tb posMask interpPos wb zt a b stdFn (D, W) tx).2 hsD hsW
    simpa using hr

/-- C6: for construction-invariant transactions (positive deposits, negative
withdrawals) and any alignment policy, the deposit and withdrawal CDFs are
non-decreasing over timebase order. -/
theorem c6_cdf_monotone (txs : List Transaction) (tb : List PyDateTime)
    (interpPos : Option (List ℚ)) (posTsSet : List PyDateTime) (am : String)
    (wb : ℕ) (zt a b : ℚ) (stdFn : List ℚ → ℚ)
    (hval : ∀ tx ∈ txs, tx.valid) (i j : ℕ) (hij : i ≤ j) (hj : j < tb.length) :
    (cumsum (createTransactionVectors txs tb interpPos posTsSet am wb zt a b stdFn).1).getD i 0 ≤
      (cumsum (createTransactionVectors txs tb interpPos posTsSet am wb zt a b stdFn).1).getD j 0 ∧
    (cumsum (createTransactionVectors txs tb interpPos posTsSet am wb zt a b stdFn).2).getD i 0 ≤
      (cumsum (createTransactionVectors txs tb interpPos posTsSet am wb zt a b stdFn).2).getD j 0 := by
  unfold createTransactionVectors
  have hrep : ∀ x ∈ List.replicate tb.length (0 : ℚ), 0 ≤ x := by
    intro x hx
    rw [List.eq_of_mem_replicate hx]
  obtain ⟨h1, h2⟩ := applyTxs_nonneg (normalizeMethod am) tb (buildPosMask posTsSet tb)
    interpPos wb zt a b stdFn txs hval (List.replicate tb.length 0)
    (List.replicate tb.length 0) hrep hrep
  obtain ⟨hl1, hl2⟩ := applyTxs_lengths (normalizeMethod am) tb (buildPosMask posTsSet tb)
    interpPos wb zt a b stdFn txs (List.replicate tb.length 0, List.replicate tb.length 0)
  constructor
  · exact cumsum_le_of_nonneg _ h1 i j hij (by rw [hl1, List.length_replicate]; exact hj)
  · exact cumsum_le_of_nonneg _ h2 i j hij (by rw [hl2, List.length_replicate]; exact hj)

/-- C6 witness: one valid deposit on a one-point timebase. -/
theorem c6_cdf_monotone_witness :
    (∀ tx ∈ [depositAt100 5], tx.valid) ∧ (0 : ℕ) ≤ 0 ∧
    (0 : ℕ) < (createUnifiedTimebase [] [⟨100, some 0⟩]).length ∧
    ((cumsum (createTransactionVectors [depositAt100 5]
        (createUnifiedTimebase [] [⟨100, some 0⟩]) none [] "none" 8 3 (3 / 10)
        (3 / 2) zeroStd).1).getD 0 0 ≤
      (cumsum (createTransactionVectors [depositAt100 5]
        (createUnifiedTimebase [] [⟨100, some 0⟩]) none [] "none" 8 3 (3 / 10)
        (3 / 2) zeroStd).1).getD 0 0 ∧
    (cumsum (createTransactionVectors [depositAt100 5]
        (createUnifiedTimebase [] [⟨100, some 0⟩]) none [] "none" 8 3 (3 / 10)
        (3 / 2) zeroStd).2).getD 0 0 ≤
      (cumsum (createTransactionVectors [depositAt100 5]
        (createUnifiedTimebase [] [⟨100, some 0⟩]) none [] "none" 8 3 (3 / 10)
        (3 / 2) zeroStd).2).getD 0 0) :=
  ⟨by decide, by decide, by decide,
    c6_cdf_monotone [depositAt100 5] (createUnifiedTimebase [] [⟨100, some 0⟩])
      none [] "none" 8 3 (3 / 10) (3 / 2) zeroStd (by decide) 0 0 (by decide)
      (by decide)⟩

/-! ### C8 — exactness of interpolation at original sample timestamps -/

/-- Linear interpolation on strictly increasing sample points reproduces the
sample values exactly. -/
theorem npInterpPairs_at_sample (pairs : List (ℚ × ℚ)) (xy : ℚ × ℚ)
    (hs : List.Pairwise (fun p q : ℚ × ℚ => p.1 < q.1) pairs)
    (hmem : xy ∈ pairs) : npInterpPairs xy.1 pairs = xy.2 := by
  induction pairs with
  | nil => cases hmem
  | cons p rest ih =>
    obtain ⟨x0, y0⟩ := p
    cases rest with
    | nil =>
      rcases List.mem_singleton.mp hmem with rfl
      rfl
    | cons q rest2 =>
      obtain ⟨x1, y1⟩ := q
      have hhead := (List.pairwise_cons.mp hs).1
      have hs2 := (List.pairwise_cons.mp hs).2
      have h01 : x0 < x1 := hhead (x1, y1) (List.mem_cons_self _ _)
      rcases List.mem_cons.mp hmem with rfl | hmem2
      · show npInterpPairs x0 ((x0, y0) :: (x1, y1) :: rest2) = y0
        unfold npInterpPairs
        rw [if_neg (lt_irrefl x0), if_pos (le_of_lt h01)]
        simp
      · have hx : x0 < xy.1 := hhead xy hmem2
        rcases List.mem_cons.mp hmem2 with rfl | hmem3
        · show npInterpPairs x1 ((x0, y0) :: (x1, y1) :: rest2) = y1
          unfold npInterpPairs
          rw [if_neg (by linarith), if_pos (le_refl x1)]
          have hne : x1 - x0 ≠ 0 := sub_ne_zero.mpr (ne_of_gt h01)
          field_simp
        · have hx1 : x1 < xy.1 := (List.pairwise_cons.mp hs2).1 xy hmem3
          show npInterpPairs xy.1 ((x0, y0) :: (x1, y1) :: rest2) = xy.2
          unfold npInterpPairs
          rw [if_neg (by linarith), if_neg (not_le.mpr hx1)]
          exact ih hs2 hmem2

theorem getD_pair_mem_zip (l1 l2 : List ℚ) (i : ℕ) (h1 : i < l1.length)
    (h2 : i < l2.length) : (l1.getD i 0, l2.getD i 0) ∈ l1.zip l2 := by
  rw [List.getD_eq_getElem l1 0 h1, List.getD_eq_getElem l2 0 h2]
  have hz : i < (l1.zip l2).length := by
    rw [List.length_zip]
    omega
  have hge := @List.getElem_zip ℚ ℚ l1 l2 i hz
  rw [← hge]
  exact List.getElem_mem hz

/-- C8: whenever the interpolator succeeds on strictly increasing sample
instants, its output reproduces the original sample value at every timebase
point whose instant coincides with a sample instant — for the linear method
and for the cubic method (whose scipy interpolant agrees with the sample
values at the knots, and whose under-4-samples fallback is linear). -/
theorem c8_interpolation_exact_at_samples (positionTs : List PyDateTime)
    (positionVals : List ℚ) (tb : List PyDateTime) (method : String)
    (cubicFn : ℚ → Option ℚ) (outVals : List ℚ) (i j : ℕ)
    (hs : List.Pairwise (· < ·)
      (positionTs.map (fun t => ((normalizeTimestamp t).instant : ℚ))))
    (hcub : ∀ k, k < positionTs.length → ∀ v,
      cubicFn ((normalizeTimestamp (positionTs.getD k ⟨0, some 0⟩)).instant : ℚ)
        = some v → v = positionVals.getD k 0)
    (hok : interpolatePositions positionTs positionVals tb method cubicFn
      = .ok outVals)
    (hi : i < positionTs.length) (hj : j < tb.length)
    (heq : ((tb.getD j ⟨0, some 0⟩).instant : ℚ)
      = ((normalizeTimestamp (positionTs.getD i ⟨0, some 0⟩)).instant : ℚ)) :
    outVals.getD j 0 = positionVals.getD i 0 := by
  unfold interpolatePositions at hok
  by_cases hlen : positionTs.length ≠ positionVals.length
  · rw [if_pos hlen] at hok
    exact absurd hok (by simp)
  · rw [if_neg hlen] at hok
    push_neg at hlen
    simp only at hok
    have hxplen : (positionTs.map (fun t => ((normalizeTimestamp t).instant : ℚ))).length
        = positionTs.length := by simp
    have hxpne : (positionTs.map (fun t => ((normalizeTimestamp t).instant : ℚ))).isEmpty = false := by
      cases positionTs with
      | nil => simp at hi
      | cons a l => rfl
    have hxpi : (positionTs.map (fun t => ((normalizeTimestamp t).instant : ℚ))).getD i 0
        = ((normalizeTimestamp (positionTs.getD i ⟨0, some 0⟩)).instant : ℚ) :=
      getD_map_of_lt _ positionTs i ⟨0, some 0⟩ 0 hi
    have hpair := getD_pair_mem_zip
      (positionTs.map (fun t => ((normalizeTimestamp t).instant : ℚ)))
      positionVals i (by omega) (by omega)
    have hzs : List.Pairwise (fun p q : ℚ × ℚ => p.1 < q.1)
        ((positionTs.map (fun t => ((normalizeTimestamp t).instant : ℚ))).zip positionVals) := by
      apply List.pairwise_map.mp
      rw [List.map_fst_zip _ _ (by omega)]
      exact hs
    have hnp : npInterpPairs
        ((normalizeTimestamp (positionTs.getD i ⟨0, some 0⟩)).instant : ℚ)
        ((positionTs.map (fun t => ((normalizeTimestamp t).instant : ℚ))).zip positionVals)
        = positionVals.getD i 0 := by
      have h := npInterpPairs_at_sample _ _ hzs hpair
      rwa [hxpi] at h
    have hpoint : ∀ g : ℚ → ℚ,
        outVals = (tb.map (fun t => (t.instant : ℚ))).map g →
        outVals.getD j 0 =
          g ((normalizeTimestamp (positionTs.getD i ⟨0, some 0⟩)).instant : ℚ) := by
      intro g hout
      rw [hout, getD_map_of_lt g _ j 0 0 (by simpa using hj),
        getD_map_of_lt _ tb j ⟨0, some 0⟩ 0 hj, heq]
    by_cases hlin : (method == "linear") = true
    · rw [if_pos hlin, if_neg (by simp [hxpne])] at hok
      have hout := Except.ok.inj hok
      rw [hpoint _ hout.symm]
      exact hnp
    · rw [if_neg hlin] at hok
      by_cases hcu : (method == "cubic") = true
      · rw [if_pos hcu] at hok
        by_cases h4 : positionVals.length < 4
        · rw [if_pos h4, if_neg (by simp [hxpne])] at hok
          have hout := Except.ok.inj hok
          rw [hpoint _ hout.symm]
          exact hnp
        · rw [if_neg h4] at hok
          have hout := Except.ok.inj hok
          rw [hpoint _ hout.symm]
          cases hc : cubicFn ((normalizeTimestamp (positionTs.getD i ⟨0, some 0⟩)).instant : ℚ) with
          | none => simp only [hc]; exact hnp
          | some v => simp only [hc]; exact hcub i hi v hc
      · rw [if_neg hcu] at hok
        exact absurd hok (by simp)

/-- C8 witness: linear interpolation of two samples onto their own timebase
reproduces the first sample value. -/
theorem c8_interpolation_exact_at_samples_witness :
    interpolatePositions [⟨0, some 0⟩, ⟨3600, some 0⟩] [1, 2]
        [⟨0, some 0⟩, ⟨3600, some 0⟩] "linear" noCubic = .ok [1, 2] ∧
    (([1, 2] : List ℚ).getD 0 0 = ([1, 2] : List ℚ).getD 0 0) :=
  ⟨by norm_num [interpolatePositions, npInterpPairs, normalizeTimestamp,
      PyDateTime.instant, noCubic],
    c8_interpolation_exact_at_samples [⟨0, some 0⟩, ⟨3600, some 0⟩] [1, 2]
      [⟨0, some 0⟩, ⟨3600, some 0⟩] "linear" noCubic [1, 2] 0 0
      (by norm_num [normalizeTimestamp, PyDateTime.instant])
      (by intro k hk v hv; exact absurd hv (by simp [noCubic]))
      (by norm_num [interpolatePositions, npInterpPairs, normalizeTimestamp,
        PyDateTime.instant, noCubic])
      (by decide) (by decide) rfl⟩

/-! ### C9 — per-wallet withdrawal caps -/

/-- The listed wallet caps are exactly `max 0 (c * gain)` of the per-wallet
pipeline gains, in order (wallets with no data or a failing pipeline
contribute nothing). -/
theorem calcPerWalletWmax_map_wmax (ws : List (String × List (PyDateTime × ℚ)))
    (allTxs : List Transaction) (c : ℚ) (am ts2 : String)
    (cubicFn : ℚ → Option ℚ) (stdFn : List ℚ → ℚ) :
    (calcPerWalletWmax ws allTxs c am ts2 cubicFn stdFn).map (fun e => e.2.1)
      = (perWalletGains ws allTxs am ts2 cubicFn stdFn).map
          (fun g => max 0 (c * g)) := by
  induction ws with
  | nil => rfl
  | cons p rest ih =>
    obtain ⟨addr, series⟩ := p
    by_cases he : series.isEmpty = true
    · simp only [calcPerWalletWmax, perWalletGains, he, if_true,
        List.filterMap_cons] at ih ⊢
      exact ih
    · cases hr : walletGainsResult allTxs am ts2 cubicFn stdFn addr series with
      | error e =>
        simp only [calcPerWalletWmax, perWalletGains, he, Bool.false_eq_true,
          if_false, hr, List.filterMap_cons] at ih ⊢
        exact ih
      | ok r =>
        simp only [calcPerWalletWmax, perWalletGains, he, Bool.false_eq_true,
          if_false, hr, List.filterMap_cons, List.map_cons] at ih ⊢
        rw [ih]

/-- C9 counterexample: two wallets with gains +10 and −10 (no transactions,
safety factor 1).  The cap sum is 10, but
`safety_factor * max(0, total_gain) = 1 * max(0, 0) = 0`, so the claimed sum
identity fails for mixed-sign per-wallet gains. -/
theorem c9_counterexample_mixed_sign_gains :
    ((calcPerWalletWmax wsEx [] 1 "none" "timestamp" noCubic zeroStd).map
      (fun e => e.2.1)).sum = 10 ∧
    (perWalletGains wsEx [] "none" "timestamp" noCubic zeroStd).sum = 0 ∧
    ((calcPerWalletWmax wsEx [] 1 "none" "timestamp" noCubic zeroStd).map
      (fun e => e.2.1)).sum ≠
      1 * max 0 (perWalletGains wsEx [] "none" "timestamp" noCubic zeroStd).sum := by
  have h1 : calcPerWalletWmax wsEx [] 1 "none" "timestamp" noCubic zeroStd
      = [("w1", 10, 110), ("w2", 0, 90)] := by
    norm_num [calcPerWalletWmax, walletGainsResult, calculateCorrectGains,
      ccgTimebase, ccgTransactionTs, ccgUseCreated, ccgTxsForMap, ccgCdfs,
      gainsFromComponents, createUnifiedTimebase, interpolatePositions,
      npInterpPairs, normalizeTimestamp, PyDateTime.instant, pyLower, pyStrip,
      createTransactionVectors, normalizeMethod, buildPosMask, cumsum,
      cumsumFrom, List.insertionSort, List.orderedInsert, findMatchIdx, pyEq,
      noCubic, zeroStd, List.range, List.range.loop, wsEx, List.getLastD,
      List.filterMap_cons, List.filterMap_nil, List.cons_ne_nil]
  have h2 : perWalletGains wsEx [] "none" "timestamp" noCubic zeroStd
      = [10, -10] := by
    norm_num [perWalletGains, walletGainsResult, calculateCorrectGains,
      ccgTimebase, ccgTransactionTs, ccgUseCreated, ccgTxsForMap, ccgCdfs,
      gainsFromComponents, createUnifiedTimebase, interpolatePositions,
      npInterpPairs, normalizeTimestamp, PyDateTime.instant, pyLower, pyStrip,
      createTransactionVectors, normalizeMethod, buildPosMask, cumsum,
      cumsumFrom, List.insertionSort, List.orderedInsert, findMatchIdx, pyEq,
      noCubic, zeroStd, List.range, List.range.loop, wsEx, List.getLastD,
      List.filterMap_cons, List.filterMap_nil, List.cons_ne_nil]
  rw [h1, h2]
  norm_num

/-- C9 amended: each listed wallet's cap is `max(0, safety_factor * gain)` of
that wallet's own pipeline gain and no-data wallets are omitted (the map
identity); the sum of the caps equals `safety_factor * max(0, total_gain)`
whenever every listed per-wallet gain is non-negative (and the safety factor
is non-negative) — but not in general, as mixed-sign gains break it. -/
theorem c9_wallet_breakdown_caps (ws : List (String × List (PyDateTime × ℚ)))
    (allTxs : List Transaction) (c : ℚ) (am ts2 : String)
    (cubicFn : ℚ → Option ℚ) (stdFn : List ℚ → ℚ) (hc : 0 ≤ c)
    (hpos : ∀ g ∈ perWalletGains ws allTxs am ts2 cubicFn stdFn, 0 ≤ g) :
    (calcPerWalletWmax ws allTxs c am ts2 cubicFn stdFn).map (fun e => e.2.1)
      = (perWalletGains ws allTxs am ts2 cubicFn stdFn).map
          (fun g => max 0 (c * g)) ∧
    ((calcPerWalletWmax ws allTxs c am ts2 cubicFn stdFn).map (fun e => e.2.1)).sum
      = c * max 0 (perWalletGains ws allTxs am ts2 cubicFn stdFn).sum := by
  refine ⟨calcPerWalletWmax_map_wmax ws allTxs c am ts2 cubicFn stdFn, ?_⟩
  rw [calcPerWalletWmax_map_wmax ws allTxs c am ts2 cubicFn stdFn]
  have hsum : ∀ gl : List ℚ, (∀ g ∈ gl, 0 ≤ g) →
      (gl.map (fun g => max 0 (c * g))).sum = c * gl.sum := by
    intro gl hgl
    induction gl with
    | nil => simp
    | cons g rest ih =>
      rw [List.map_cons, List.sum_cons, List.sum_cons, mul_add,
        ih (fun x hx => hgl x (List.mem_cons_of_mem _ hx))]
      congr 1
      exact max_eq_right (mul_nonneg hc (hgl g (List.mem_cons_self _ _)))
  rw [hsum _ hpos]
  congr 1
  exact (max_eq_right (List.sum_nonneg hpos)).symm

/-- C9 witness: one wallet gaining 10 with safety factor 1. -/
theorem c9_wallet_breakdown_caps_witness :
    (0 : ℚ) ≤ 1 ∧
    (∀ g ∈ perWalletGains [("w1", [(⟨0, some 0⟩, 100), (⟨3600, some 0⟩, 110)])]
      [] "none" "timestamp" noCubic zeroStd, 0 ≤ g) ∧
    ((calcPerWalletWmax [("w1", [(⟨0, some 0⟩, 100), (⟨3600, some 0⟩, 110)])]
        [] 1 "none" "timestamp" noCubic zeroStd).map (fun e => e.2.1)
      = (perWalletGains [("w1", [(⟨0, some 0⟩, 100), (⟨3600, some 0⟩, 110)])]
          [] "none" "timestamp" noCubic zeroStd).map (fun g => max 0 (1 * g)) ∧
    ((calcPerWalletWmax [("w1", [(⟨0, some 0⟩, 100), (⟨3600, some 0⟩, 110)])]
        [] 1 "none" "timestamp" noCubic zeroStd).map (fun e => e.2.1)).sum
      = 1 * max 0 (perWalletGains [("w1", [(⟨0, some 0⟩, 100), (⟨3600, some 0⟩, 110)])]
          [] "none" "timestamp" noCubic zeroStd).sum) := by
  have hg : perWalletGains [("w1", [(⟨0, some 0⟩, 100), (⟨3600, some 0⟩, 110)])]
      [] "none" "timestamp" noCubic zeroStd = [10] := by
    norm_num [perWalletGains, walletGainsResult, calculateCorrectGains,
      ccgTimebase, ccgTransactionTs, ccgUseCreated, ccgTxsForMap, ccgCdfs,
      gainsFromComponents, createUnifiedTimebase, interpolatePositions,
      npInterpPairs, normalizeTimestamp, PyDateTime.instant, pyLower, pyStrip,
      createTransactionVectors, normalizeMethod, buildPosMask, cumsum,
      cumsumFrom, List.insertionSort, List.orderedInsert, findMatchIdx, pyEq,
      noCubic, zeroStd, List.range, List.range.loop, List.getLastD,
      List.filterMap_cons, List.filterMap_nil, List.cons_ne_nil]
  have hpos : ∀ g ∈ perWalletGains [("w1", [(⟨0, some 0⟩, 100), (⟨3600, some 0⟩, 110)])]
      [] "none" "timestamp" noCubic zeroStd, (0 : ℚ) ≤ g := by
    rw [hg]
    intro g hgm
    rcases List.mem_singleton.mp hgm with rfl
    norm_num
  exact ⟨by norm_num, hpos,
    c9_wallet_breakdown_caps [("w1", [(⟨0, some 0⟩, 100), (⟨3600, some 0⟩, 110)])]
      [] 1 "none" "timestamp" noCubic zeroStd (by norm_num) hpos⟩

/-! ### C10 — every resolved index stays inside the timebase -/

theorem trueIndices_lt (mask : List Bool) (k : ℕ) (hk : k ∈ trueIndices mask) :
    k < mask.length := by
  unfold trueIndices at hk
  exact List.mem_range.mp (List.mem_filter.mp hk).1

theorem findNextTrue_lt (mask : List Bool) (i j : ℕ)
    (h : findNextTrue mask i = some j) : j < mask.length := by
  unfold findNextTrue at h
  exact List.mem_range.mp (List.mem_of_mem_drop (List.mem_of_find?_eq_some h))

theorem findPrevTrue_le (mask : List Bool) (i j : ℕ)
    (h : findPrevTrue mask i = some j) : j ≤ i := by
  unfold findPrevTrue at h
  have hmem := List.mem_of_getLast?_eq_some h
  have hr := List.mem_range.mp (List.mem_filter.mp hmem).1
  omega

theorem foldl_min_pick_mem (x : ℕ) (rest : List ℕ) (f : ℕ → ℕ) :
    rest.foldl (fun best k => if f k < f best then k else best) x ∈ x :: rest := by
  induction rest generalizing x with
  | nil => exact List.mem_singleton.mpr rfl
  | cons k ks ih =>
    simp only [List.foldl_cons]
    by_cases h : f k < f x
    · rw [if_pos h]
      exact List.mem_cons_of_mem _ (ih k)
    · rw [if_neg h]
      rcases List.mem_cons.mp (ih x) with h2 | h2
      · rw [h2]
        exact List.mem_cons_self _ _
      · exact List.mem_cons_of_mem _ (List.mem_cons_of_mem _ h2)

theorem argminFirst_mem (l : List ℕ) (f : ℕ → ℕ) (d : ℕ) (hl : l ≠ []) :
    argminFirst l f d ∈ l := by
  cases l with
  | nil => exact absurd rfl hl
  | cons x rest => exact foldl_min_pick_mem x rest f

theorem foldl_max_choice (l : List ℕ) (a : ℕ) :
    l.foldl max a = a ∨ l.foldl max a ∈ l := by
  induction l generalizing a with
  | nil => exact Or.inl rfl
  | cons x xs ih =>
    simp only [List.foldl_cons]
    rcases ih (max a x) with h | h
    · rcases max_choice a x with h2 | h2
      · left
        rw [h, h2]
      · right
        rw [h, h2]
        exact List.mem_cons_self _ _
    · exact Or.inr (List.mem_cons_of_mem _ h)

theorem forwardFallback_lt (dP : List ℚ) (idx wb2 : ℕ) (sign : ℚ) (n : ℕ)
    (hidx : idx < n) : forwardFallback dP idx wb2 sign n < n := by
  simp only [forwardFallback]
  split
  · split
    · omega
    · exact hidx
  · exact hidx

theorem snapToNextIdx_lt (mask : List Bool) (idx : ℕ) (hidx : idx < mask.length) :
    snapToNextIdx mask idx < mask.length := by
  unfold snapToNextIdx
  split
  · rename_i j hj
    exact findNextTrue_lt mask idx j hj
  · split
    · rename_i k hk
      exact trueIndices_lt mask k (List.mem_of_getLast?_eq_some hk)
    · exact hidx

theorem snapToPrevIdx_lt (mask : List Bool) (idx : ℕ) (hidx : idx < mask.length) :
    snapToPrevIdx mask idx < mask.length := by
  unfold snapToPrevIdx
  split
  · rename_i j hj
    have := findPrevTrue_le mask idx j hj
    omega
  · split
    · rename_i k hk
      obtain ⟨ys, hys⟩ := List.head?_eq_some_iff.mp hk
      exact trueIndices_lt mask k (hys ▸ List.mem_cons_self _ _)
    · exact hidx

theorem snapToNearestIdx_lt (tb : List PyDateTime) (mask : List Bool)
    (idx : ℕ) (tx : Transaction) (hml : mask.length = tb.length)
    (hidx : idx < tb.length) :
    snapToNearestIdx tb mask idx tx < tb.length := by
  simp only [snapToNearestIdx]
  split
  · exact hidx
  · rename_i hne0
    have hne : trueIndices mask ≠ [] := by
      intro hcon
      rw [hcon] at hne0
      exact hne0 rfl
    split
    · rw [← hml]
      exact trueIndices_lt mask _ (argminFirst_mem (trueIndices mask) _ idx hne)
    · rcases foldl_max_choice ((trueIndices mask).filter _) 0 with h | h
      · rw [h]
        omega
      · rw [← hml]
        exact trueIndices_lt mask _ (List.mem_of_mem_filter h)

theorem detectSpikeIdx_lt (tb : List PyDateTime) (P : List ℚ) (wb2 : ℕ)
    (zt a b : ℚ) (stdFn : List ℚ → ℚ) (idx : ℕ) (tx : Transaction)
    (hidx : idx < tb.length) :
    detectSpikeIdx tb P wb2 zt a b stdFn idx tx < tb.length := by
  simp only [detectSpikeIdx]
  split
  · split
    · omega
    · split
      · omega
      · exact forwardFallback_lt _ idx wb2 _ tb.length hidx
  · exact hidx

/-- C10: for a non-empty timebase and a matched base index, the
policy-resolved index returned by `choose_index_for_tx` is always strictly
below the timebase length (so the vector write is in bounds), for every
alignment policy including the spike-detect one and for every behaviour of
the numpy `std` oracle. -/
theorem c10_resolved_index_in_bounds (method : String) (tb : List PyDateTime)
    (posMask : Option (List Bool)) (interpPos : Option (List ℚ))
    (wb2 : ℕ) (zt a b : ℚ) (stdFn : List ℚ → ℚ) (idx : ℕ) (tx : Transaction)
    (hmask : ∀ m, posMask = some m → m.length = tb.length)
    (hidx : idx < tb.length) :
    chooseIndexForTx method tb posMask interpPos wb2 zt a b stdFn idx tx
      < tb.length := by
  have hn : 0 < tb.length := by omega
  unfold chooseIndexForTx
  split_ifs with h1 h2 h3 h4 h5
  · omega
  · obtain ⟨m, hm⟩ := Option.isSome_iff_exists.mp h2.2
    rw [hm, Option.getD_some]
    rw [← hmask m hm]
    exact snapToNextIdx_lt m idx (by rw [hmask m hm]; exact hidx)
  · obtain ⟨m, hm⟩ := Option.isSome_iff_exists.mp h3.2
    rw [hm, Option.getD_some]
    rw [← hmask m hm]
    exact snapToPrevIdx_lt m idx (by rw [hmask m hm]; exact hidx)
  · obtain ⟨m, hm⟩ := Option.isSome_iff_exists.mp h4.2
    rw [hm, Option.getD_some]
    exact snapToNearestIdx_lt tb m idx tx (hmask m hm) hidx
  · exact detectSpikeIdx_lt tb _ wb2 zt a b stdFn idx tx hidx
  · exact hidx

/-- C10 witness: the right_open policy on a two-point timebase. -/
theorem c10_resolved_index_in_bounds_witness :
    (∀ m, (none : Option (List Bool)) = some m →
      m.length = (createUnifiedTimebase [] [⟨0, some 0⟩, ⟨3600, some 0⟩]).length) ∧
    (0 : ℕ) < (createUnifiedTimebase [] [⟨0, some 0⟩, ⟨3600, some 0⟩]).length ∧
    chooseIndexForTx "right_open" (createUnifiedTimebase [] [⟨0, some 0⟩, ⟨3600, some 0⟩])
      none none 8 3 (3 / 10) (3 / 2) zeroStd 0 (depositAt100 5)
      < (createUnifiedTimebase [] [⟨0, some 0⟩, ⟨3600, some 0⟩]).length :=
  ⟨(fun m hm => Option.noConfusion hm), by decide,
    c10_resolved_index_in_bounds "right_open"
      (createUnifiedTimebase [] [⟨0, some 0⟩, ⟨3600, some 0⟩]) none none 8 3
      (3 / 10) (3 / 2) zeroStd 0 (depositAt100 5)
      (fun m hm => Option.noConfusion hm) (by decide)⟩

end AlertOrch
